import Mathlib

/-!
Shallow embedding of the sqnice connection pool (`src/pool.cc`,
`include/sqnice/pool.hh`) together with the open-flag normalization it
relies on (`normalize` in `src/database.cc`).

Modelling conventions:

* `open_flags` is the 32-bit mask of `database.hh`, held in a `Nat`; the
  C++ enum operators `|`, `&`, `-` become `addFlag`, `&&&`-tests and
  `subFlag`.
* The pool fields `_ro_capacity`, `_ro_total`, `_rw_total`, `_readonly`,
  `_readwrite` are mirrored directly.  C++ `unsigned` arithmetic is
  modelled with `Nat`; truncated `Nat` subtraction agrees with the
  machine wherever the subtraction does not underflow, which the
  reachability invariant establishes for every subtraction the code
  performs.
* `_readonly` is a `std::vector` used as a stack (`emplace_back` /
  `pop_back` / `back`); the Lean list stores it back-first, so `pop_back`
  is taking the tail, `emplace_back` is `List.cons`, and the
  `while (size > keep) pop_back()` loop of `set_capacity` is
  `List.drop (size - keep)`.
* A connection is a record carrying the observable black-box interface of
  `database` (`is_writeable`, `transaction_depth`) plus an `id` assigned
  by the connection factory `new_db`; `nextId` counts factory
  invocations, so "no new open call" is `nextId` staying fixed.  The
  environment Boolean `fileWritable` says whether a connection opened
  with the `readwrite` flag reports `is_writeable()` (false on e.g. a
  read-only filesystem).  Opens themselves are assumed to succeed; the
  `_dbname` / `_vfs` strings and the `_initializer` callback have no
  observable effect on pool state and are kept only in `PoolConfig`.
* Borrowed handles are the ghost lists `borrowedRO` / `borrowedRW` of the
  connection records currently held by callers; destroying a handle is
  the `return_ro` / `return_rw` step (the pool's two deleter
  `operator()`s).
* Blocking: the embedding follows a single caller thread, so a
  `condition_variable` wait whose predicate is false yields the result
  `wouldBlock`; the `try_*` forms never produce it.
* The `assert(...)` calls in the deleters are modelled as the Boolean
  functions `ro_return_checks` / `rw_return_checks`, evaluated on the
  state at the point of the assert; they do not alter the transition
  (NDEBUG semantics).
-/

namespace Sqnice

/-! ## Open flags (`database.hh`) -/

def readwriteFlag : Nat := 0x00000002

def createFlag : Nat := 0x00000004

def uriFlag : Nat := 0x00000040

def memoryFlag : Nat := 0x00000080

def temporaryFlag : Nat := 0x40000000

def delete_firstFlag : Nat := 0x80000000

/-- C++ `!!(a & b)`: test whether any of the bits of `bit` is set. -/
def hasFlag (flags bit : Nat) : Bool := flags &&& bit != 0

/-- C++ `operator|` on `open_flags`. -/
def addFlag (flags bit : Nat) : Nat := flags ||| bit

/-- C++ `operator-` on `open_flags`: `int(a) & ~int(b)` on the 32-bit word. -/
def subFlag (flags bit : Nat) : Nat := flags &&& (0xFFFFFFFF ^^^ bit)

/-- The `invalid_argument` / `logic_error` style failures the modelled code
can raise synchronously. -/
inductive ArgError
  | deleteFirstRequiresReadwrite
  | createRequiresReadwrite
  | poolNoTemporary
  | capacityTooSmall
  | emptyFilename
deriving Repr, DecidableEq

/-- First step of `normalize` (`database.cc` line 117-118): `memory`
implies `temporary`. -/
def memNormalize (flags : Nat) : Nat :=
  if hasFlag flags memoryFlag then addFlag flags temporaryFlag else flags

/-- Final check of `normalize` (`database.cc` lines 127-128): `create`
requires `readwrite`, on every path. -/
def finishNormalize (flags : Nat) : Except ArgError Nat :=
  if hasFlag flags createFlag && !hasFlag flags readwriteFlag then
    Except.error ArgError.createRequiresReadwrite
  else
    Except.ok flags

/-- `normalize` from `database.cc` (lines 115-131): canonicalise a flag set,
rejecting `delete_first` without `readwrite` and `create` without
`readwrite`. -/
def normalize (flags : Nat) : Except ArgError Nat :=
  let flags := memNormalize flags
  if hasFlag flags temporaryFlag then
    finishNormalize (subFlag (addFlag flags (readwriteFlag ||| createFlag)) delete_firstFlag)
  else if hasFlag flags delete_firstFlag then
    if !hasFlag flags readwriteFlag then
      Except.error ArgError.deleteFirstRequiresReadwrite
    else
      finishNormalize (addFlag flags createFlag)
  else
    finishNormalize flags

/-- The configuration a `pool` stores at construction (`_dbname`, `_vfs`,
`_flags`); no connection is opened here. -/
structure PoolConfig where
  dbname : String
  flags : Nat
  vfs : Option String
deriving Repr, DecidableEq

/-- `pool::pool` (`pool.cc` lines 42-49): normalize the flags, then reject
in-memory / temporary databases.  Nothing else is examined. -/
def pool_new (dbname : String) (flags : Nat) (vfs : Option String := none) :
    Except ArgError PoolConfig := do
  let nf ← normalize flags
  if hasFlag nf temporaryFlag then
    Except.error ArgError.poolNoTemporary
  else
    pure { dbname := dbname, flags := nf, vfs := vfs }

/-- The validation `database::open` performs before calling the engine
(`database.cc` lines 133-151): an empty filename is rejected for a
non-temporary database.  This is where an empty pool path first fails,
at the first borrow. -/
def open_validates (dbname : String) (flags : Nat) : Except ArgError Nat := do
  let flags ← normalize flags
  if !hasFlag flags temporaryFlag && dbname = "" then
    Except.error ArgError.emptyFilename
  else
    pure flags

/-! ## Pool state -/

/-- The observable interface of one `database` connection (§6 of the spec:
`is_writeable`, `transaction_depth`), plus a factory-assigned id. -/
structure Conn where
  id : Nat
  writable : Bool
  txnDepth : Nat
deriving Repr, DecidableEq

/-- The pool's mutable state (fields of `class pool`), extended with the
ghost lists of outstanding handles and the factory counter `nextId`. -/
structure PoolSt where
  flags : Nat
  fileWritable : Bool
  ro_capacity : Nat
  ro_total : Nat
  rw_total : Nat
  readonly : List Conn
  readwrite : Option Conn
  nextId : Nat
  borrowedRO : List Conn
  borrowedRW : List Conn
deriving Repr, DecidableEq

/-- The state of a freshly constructed pool: `_ro_capacity = 4`
(`pool.hh` line 145), all counts zero, nothing open. -/
def pool_init (cfg : PoolConfig) (fileWritable : Bool) : PoolSt :=
  { flags := cfg.flags
    fileWritable := fileWritable
    ro_capacity := 4
    ro_total := 0
    rw_total := 0
    readonly := []
    readwrite := none
    nextId := 0
    borrowedRO := []
    borrowedRW := [] }

/-- `pool::capacity` (`pool.cc` lines 57-60): the public capacity counts
the writeable slot, `_ro_capacity + 1`. -/
def capacity (s : PoolSt) : Nat := s.ro_capacity + 1

/-- `pool::open_count` (`pool.cc` lines 82-85): `_ro_total + _rw_total`. -/
def open_count (s : PoolSt) : Nat := s.ro_total + s.rw_total

/-- Number 1 if the idle writeable slot is occupied, else 0
(C++ `!!_readwrite`). -/
def rwIdle (s : PoolSt) : Nat := if s.readwrite.isSome then 1 else 0

/-- `pool::_borrowed_count` (`pool.cc` lines 94-96):
`(_ro_total - _readonly.size()) + (_rw_total - !!_readwrite)`. -/
def borrowed_count (s : PoolSt) : Nat :=
  (s.ro_total - s.readonly.length) + (s.rw_total - rwIdle s)

/-- `pool::set_capacity` (`pool.cc` lines 63-73): reject `n < 2`, set
`_ro_capacity = n - 1`, then pop excess idle read-only databases down to
`keep = max(0, ro_capacity - (ro_total - size))`.  Note the source pops
(destroying the databases) without touching `_ro_total`. -/
def set_capacity (s : PoolSt) (newCapacity : Nat) : Except ArgError PoolSt :=
  if newCapacity < 2 then
    Except.error ArgError.capacityTooSmall
  else
    let cap := newCapacity - 1
    let keep := cap - (s.ro_total - s.readonly.length)
    Except.ok { s with
      ro_capacity := cap
      readonly := s.readonly.drop (s.readonly.length - keep) }

/-- `pool::new_db` (`pool.cc` lines 125-135): the connection factory.  A
read-only open drops `readwrite`/`create`, so the connection reports
`is_writeable() = false`; a writeable open reports the environment's
`fileWritable`.  The `delete_first` flag is cleared after any open. -/
def new_db (s : PoolSt) (writeable : Bool) : Conn × PoolSt :=
  let c : Conn := { id := s.nextId, writable := writeable && s.fileWritable, txnDepth := 0 }
  (c, { s with nextId := s.nextId + 1, flags := subFlag s.flags delete_firstFlag })

/-- Result of `pool::borrow(bool)`. -/
inductive RoRes
  | got (c : Conn)
  | empty
  | wouldBlock
deriving Repr, DecidableEq

/-- `pool::borrow` (`pool.cc` lines 138-158): take the idle stack's back,
else create a new connection while `_ro_total < _ro_capacity`, else either
wait on the condition variable (blocking form) or return a null handle. -/
def borrow (orWait : Bool) (s : PoolSt) : RoRes × PoolSt :=
  match s.readonly with
  | c :: rest =>
      (RoRes.got c, { s with readonly := rest, borrowedRO := c :: s.borrowedRO })
  | [] =>
      if s.ro_total < s.ro_capacity then
        let (c, s1) := new_db s false
        (RoRes.got c, { s1 with ro_total := s1.ro_total + 1, borrowedRO := c :: s1.borrowedRO })
      else if orWait then
        (RoRes.wouldBlock, s)
      else
        (RoRes.empty, s)

/-- Result of `pool::borrow_writeable(bool)`. -/
inductive RwRes
  | got (c : Conn)
  | empty
  | wouldBlock
  /-- `logic_error("no writeable database available")` -/
  | errNoWriteable
  /-- `database_error("database file is not writeable", status::locked)` -/
  | errNotWritable
deriving Repr, DecidableEq

/-- `pool::borrow_writeable` (`pool.cc` lines 161-183): fail unless the
flags allow writing; create the single writeable connection on first use
(discarding it with a locked error if the file is not actually
writeable); otherwise take the idle writeable connection, waiting for it
in the blocking form. -/
def borrow_writeable (orWait : Bool) (s : PoolSt) : RwRes × PoolSt :=
  if !(hasFlag s.flags readwriteFlag || hasFlag s.flags delete_firstFlag) then
    (RwRes.errNoWriteable, s)
  else if s.rw_total = 0 then
    let (c, s1) := new_db s true
    if !c.writable then
      (RwRes.errNotWritable, s1)
    else
      (RwRes.got c, { s1 with rw_total := s1.rw_total + 1, borrowedRW := c :: s1.borrowedRW })
  else
    match s.readwrite with
    | some c => (RwRes.got c, { s with readwrite := none, borrowedRW := c :: s.borrowedRW })
    | none =>
        if orWait then (RwRes.wouldBlock, s) else (RwRes.empty, s)

/-- The two `assert`s of the read-only deleter `pool::operator()(database
const*)` (`pool.cc` lines 191-192): `!dbp->is_writeable()` and
`_readonly.size() < _ro_total`.  There is no transaction-depth assert on
this path. -/
def ro_return_checks (s : PoolSt) (c : Conn) : Bool :=
  !c.writable && decide (s.readonly.length < s.ro_total)

/-- The read-only deleter `pool::operator()(database const*)` (`pool.cc`
lines 187-202), returning the `i`-th outstanding read-only handle: if
`_ro_total ≤ _ro_capacity` push it back on the idle stack, else destroy
it and decrement `_ro_total` (lazy capacity shrink).  Returning a handle
that does not exist is a no-op (a null `unique_ptr` deleter call). -/
def return_ro (s : PoolSt) (i : Nat) : PoolSt :=
  match s.borrowedRO[i]? with
  | none => s
  | some c =>
      let s1 := { s with borrowedRO := s.borrowedRO.eraseIdx i }
      if s1.ro_total ≤ s1.ro_capacity then
        { s1 with readonly := c :: s1.readonly }
      else
        { s1 with ro_total := s1.ro_total - 1 }

/-- The four `assert`s of the writeable deleter `pool::operator()(database*)`
(`pool.cc` lines 209-213): `is_writeable()`, `transaction_depth() == 0`,
`_rw_total == 1`, `!_readwrite`. -/
def rw_return_checks (s : PoolSt) (c : Conn) : Bool :=
  c.writable && c.txnDepth == 0 && s.rw_total == 1 && s.readwrite.isNone

/-- The writeable deleter `pool::operator()(database*)` (`pool.cc` lines
206-217), returning the (unique) outstanding writeable handle: the
connection is always stashed back as the idle writeable connection,
never destroyed. -/
def return_rw (s : PoolSt) : PoolSt :=
  match s.borrowedRW with
  | [] => s
  | c :: rest => { s with borrowedRW := rest, readwrite := some c }

/-- `pool::_close_unused` (`pool.cc` lines 114-121): drop every idle
connection, subtracting the idle read-only count from `_ro_total` and
zeroing `_rw_total` if the idle writeable connection existed. -/
def close_unused (s : PoolSt) : PoolSt :=
  { s with
    ro_total := s.ro_total - s.readonly.length
    readonly := []
    readwrite := none
    rw_total := if s.readwrite.isSome then 0 else s.rw_total }

/-- `pool::close_all` (`pool.cc` lines 99-105): close unused connections,
wait on the condition variable until `_borrowed_count() == 0`, close
unused again.  `none` models the wait blocking forever when no other
thread can return a connection. -/
def close_all (s : PoolSt) : Option PoolSt :=
  let s1 := close_unused s
  if borrowed_count s1 = 0 then
    some (close_unused s1)
  else
    none

/-- Caller activity on the outstanding writeable handle: transactions
opened/closed through it set its `transaction_depth`. -/
def set_rw_depth (s : PoolSt) (n : Nat) : PoolSt :=
  match s.borrowedRW with
  | [] => s
  | c :: rest => { s with borrowedRW := { c with txnDepth := n } :: rest }

/-- Caller activity on an outstanding read-only handle. -/
def set_ro_depth (s : PoolSt) (i n : Nat) : PoolSt :=
  match s.borrowedRO[i]? with
  | none => s
  | some c => { s with borrowedRO := s.borrowedRO.set i { c with txnDepth := n } }

/-! ## Operation sequences -/

/-- One observable pool operation (the claims' alphabet: borrows in both
blocking flavours, handle returns, capacity changes, closing unused
connections, and caller transaction activity on borrowed handles). -/
inductive Op
  | borrowRO (orWait : Bool)
  | borrowRW (orWait : Bool)
  | returnRO (i : Nat)
  | returnRW
  | setCapacity (n : Nat)
  | closeUnused
  | setRWDepth (n : Nat)
  | setRODepth (i n : Nat)
deriving Repr, DecidableEq

/-- The state transition of one operation (results are observed by the
claim statements via the operation functions themselves; an operation
that fails or blocks leaves the state unchanged). -/
def step (s : PoolSt) (op : Op) : PoolSt :=
  match op with
  | Op.borrowRO w => (borrow w s).2
  | Op.borrowRW w => (borrow_writeable w s).2
  | Op.returnRO i => return_ro s i
  | Op.returnRW => return_rw s
  | Op.setCapacity n =>
      match set_capacity s n with
      | Except.ok s1 => s1
      | Except.error _ => s
  | Op.closeUnused => close_unused s
  | Op.setRWDepth n => set_rw_depth s n
  | Op.setRODepth i n => set_ro_depth s i n

/-- Run a sequence of operations. -/
def run (s : PoolSt) (ops : List Op) : PoolSt := ops.foldl step s

/-- Is this operation a `set_capacity` call? -/
def isSetCap : Op → Bool
  | Op.setCapacity _ => true
  | _ => false

/-- True when a sequence contains no `set_capacity` call. -/
def noSetCap (ops : List Op) : Bool :=
  ops.all fun op => !isSetCap op

/-- A concrete configuration: `pool("db")` with the default flags
`readwrite | create` (which `normalize` accepts unchanged). -/
def cfgD : PoolConfig := { dbname := "db", flags := readwriteFlag ||| createFlag, vfs := none }

/-- A concrete fresh pool on a writable file. -/
def poolD : PoolSt := pool_init cfgD true

/-! ## Flag lemmas -/

theorem hasFlag_addFlag (f a b : Nat) (h : b &&& a = 0) :
    hasFlag (addFlag f b) a = hasFlag f a := by
  unfold hasFlag addFlag
  rw [Nat.and_distrib_right, h, Nat.or_zero]

theorem hasFlag_subFlag_of_keep (f a b : Nat) (h : (0xFFFFFFFF ^^^ b) &&& a = a) :
    hasFlag (subFlag f b) a = hasFlag f a := by
  unfold hasFlag subFlag
  rw [Nat.land_assoc, h]

theorem hasFlag_subFlag_of_drop (f a b : Nat) (h : (0xFFFFFFFF ^^^ b) &&& a = 0) :
    hasFlag (subFlag f b) a = false := by
  unfold hasFlag subFlag
  rw [Nat.land_assoc, h, Nat.and_zero]
  rfl

/-- Clearing `delete_first` does not disturb `readwrite`. -/
theorem subFlag_df_readwrite (f : Nat) :
    hasFlag (subFlag f delete_firstFlag) readwriteFlag = hasFlag f readwriteFlag :=
  hasFlag_subFlag_of_keep f readwriteFlag delete_firstFlag (by decide)

/-- Clearing `delete_first` clears it. -/
theorem subFlag_df_df (f : Nat) :
    hasFlag (subFlag f delete_firstFlag) delete_firstFlag = false :=
  hasFlag_subFlag_of_drop f delete_firstFlag delete_firstFlag (by decide)

theorem finishNormalize_ok (f nf : Nat) (h : finishNormalize f = Except.ok nf) :
    nf = f ∧ (hasFlag f createFlag = true → hasFlag f readwriteFlag = true) := by
  unfold finishNormalize at h
  split at h
  · cases h
  · rename_i hc
    cases h
    refine ⟨rfl, fun hcr => ?_⟩
    simpa [hcr] using hc

/-- Flags surviving `normalize` satisfy: `delete_first` implies
`readwrite`. -/
theorem normalize_df_rw (flags nf : Nat) (h : normalize flags = Except.ok nf) :
    hasFlag nf delete_firstFlag = true → hasFlag nf readwriteFlag = true := by
  simp only [normalize] at h
  split at h
  · obtain ⟨rfl, -⟩ := finishNormalize_ok _ _ h
    intro hdf
    rw [subFlag_df_df] at hdf
    cases hdf
  · split at h
    · split at h
      · cases h
      · rename_i hrw0
        obtain ⟨rfl, -⟩ := finishNormalize_ok _ _ h
        intro _
        rw [hasFlag_addFlag _ _ _ (by decide)]
        simpa using hrw0
    · rename_i hdf0
      obtain ⟨rfl, -⟩ := finishNormalize_ok _ _ h
      intro hdf
      exact absurd hdf (by simpa using hdf0)

/-- A successful pool construction records a successfully normalized flag
set. -/
theorem pool_new_flags (name : String) (flags : Nat) (vfs : Option String)
    (cfg : PoolConfig) (h : pool_new name flags vfs = Except.ok cfg) :
    normalize flags = Except.ok cfg.flags := by
  unfold pool_new at h
  cases hn : normalize flags with
  | error e => rw [hn] at h; cases h
  | ok nf =>
      rw [hn] at h
      simp only [bind, Except.bind] at h
      split at h
      · cases h
      · cases h
        rfl

/-! ## The reachability invariant -/

/-- State invariant maintained by every pool operation: the idle and
outstanding populations are bounded by the creation counters, the
writeable side is exclusive, idle/borrowed read-only connections are
read-only, writeable ones are writeable, and the flag bookkeeping needed
by `borrow_writeable` is consistent. -/
structure Inv (s : PoolSt) : Prop where
  ro_le : s.readonly.length + s.borrowedRO.length ≤ s.ro_total
  rw_eq : s.rw_total = rwIdle s + s.borrowedRW.length
  rw_le : s.rw_total ≤ 1
  idle_ro : ∀ c ∈ s.readonly, c.writable = false
  out_ro : ∀ c ∈ s.borrowedRO, c.writable = false
  out_rw : ∀ c ∈ s.borrowedRW, c.writable = true
  idle_rw : ∀ c, s.readwrite = some c → c.writable = true
  rw_flag : s.rw_total = 1 → hasFlag s.flags readwriteFlag = true
  df_rw : hasFlag s.flags delete_firstFlag = true → hasFlag s.flags readwriteFlag = true

theorem inv_pool_init (name : String) (flags : Nat) (vfs : Option String)
    (cfg : PoolConfig) (fw : Bool) (h : pool_new name flags vfs = Except.ok cfg) :
    Inv (pool_init cfg fw) := by
  have hn := pool_new_flags name flags vfs cfg h
  refine ⟨?_, ?_, ?_, ?_, ?_, ?_, ?_, ?_, ?_⟩ <;>
    simp [pool_init, rwIdle]
  exact normalize_df_rw flags cfg.flags hn

theorem inv_borrow (w : Bool) (s : PoolSt) (h : Inv s) : Inv (borrow w s).2 := by
  obtain ⟨fl, fw, cap, rot, rwt, ro, rwdb, nid, bro, brw⟩ := s
  obtain ⟨ro_le, rw_eq, rw_le, idle_ro, out_ro, out_rw, idle_rw, rw_flag, df_rw⟩ := h
  simp only [] at *
  cases ro with
  | cons c rest =>
      refine ⟨?_, rw_eq, rw_le, ?_, ?_, out_rw, idle_rw, rw_flag, df_rw⟩ <;>
        simp only [borrow, List.length_cons, rwIdle] at *
      · omega
      · exact fun x hx => idle_ro x (List.mem_cons_of_mem c hx)
      · intro x hx
        rcases List.mem_cons.mp hx with rfl | hx
        · exact idle_ro x (List.mem_cons_self x rest)
        · exact out_ro x hx
  | nil =>
      by_cases hc : rot < cap
      · refine ⟨?_, ?_, ?_, ?_, ?_, ?_, ?_, ?_, ?_⟩ <;>
          simp only [borrow, new_db, hc, if_pos, List.length_nil, List.length_cons,
            rwIdle] at *
        · omega
        · exact rw_eq
        · exact rw_le
        · exact fun x hx => absurd hx (List.not_mem_nil x)
        · intro x hx
          rcases List.mem_cons.mp hx with rfl | hx
          · simp
          · exact out_ro x hx
        · exact out_rw
        · exact idle_rw
        · intro h1
          rw [subFlag_df_readwrite]
          exact rw_flag h1
        · rw [subFlag_df_df]
          intro h1
          cases h1
      · cases w <;>
          exact ⟨by simpa [borrow, hc] using ro_le, by simpa [borrow, hc] using rw_eq,
            by simpa [borrow, hc] using rw_le, by simpa [borrow, hc] using idle_ro,
            by simpa [borrow, hc] using out_ro, by simpa [borrow, hc] using out_rw,
            by simpa [borrow, hc] using idle_rw, by simpa [borrow, hc] using rw_flag,
            by simpa [borrow, hc] using df_rw⟩

theorem inv_borrow_writeable (w : Bool) (s : PoolSt) (h : Inv s) :
    Inv (borrow_writeable w s).2 := by
  obtain ⟨fl, fw, cap, rot, rwt, ro, rwdb, nid, bro, brw⟩ := s
  obtain ⟨ro_le, rw_eq, rw_le, idle_ro, out_ro, out_rw, idle_rw, rw_flag, df_rw⟩ := h
  simp only [] at ro_le rw_eq rw_le idle_ro out_ro out_rw idle_rw rw_flag df_rw
  by_cases hfl : (hasFlag fl readwriteFlag || hasFlag fl delete_firstFlag) = true
  case neg =>
    have hs : (borrow_writeable w ⟨fl, fw, cap, rot, rwt, ro, rwdb, nid, bro, brw⟩).2
        = ⟨fl, fw, cap, rot, rwt, ro, rwdb, nid, bro, brw⟩ := by
      simp [borrow_writeable, hfl]
    rw [hs]
    exact ⟨ro_le, rw_eq, rw_le, idle_ro, out_ro, out_rw, idle_rw, rw_flag, df_rw⟩
  case pos =>
    by_cases hrwt : rwt = 0
    · subst hrwt
      have hidle : rwdb = none := by
        cases hrwdb : rwdb with
        | none => rfl
        | some c =>
            rw [hrwdb] at rw_eq
            simp only [rwIdle, Option.isSome_some, if_pos] at rw_eq
            exact absurd rw_eq (by omega)
      subst hidle
      have hbrw : brw = [] := by
        simp only [rwIdle, Option.isSome_none, Bool.false_eq_true, if_neg,
          reduceIte] at rw_eq
        exact List.length_eq_zero.mp (by omega)
      subst hbrw
      cases fw with
      | true =>
          have hs : (borrow_writeable w ⟨fl, true, cap, rot, 0, ro, none, nid, bro, []⟩).2
              = ⟨subFlag fl delete_firstFlag, true, cap, rot, 1, ro, none, nid + 1, bro,
                 [⟨nid, true, 0⟩]⟩ := by
            simp [borrow_writeable, new_db, hfl]
          rw [hs]
          refine ⟨ro_le, by simp [rwIdle], by simp, idle_ro, out_ro, ?_, ?_, ?_, ?_⟩
          · intro x hx
            rcases List.mem_cons.mp hx with rfl | hx
            · rfl
            · cases hx
          · intro c hc
            cases hc
          · intro _
            rw [subFlag_df_readwrite]
            rcases Bool.or_eq_true_iff.mp hfl with h1 | h1
            · exact h1
            · exact df_rw h1
          · rw [subFlag_df_df]
            intro h1
            cases h1
      | false =>
          have hs : (borrow_writeable w ⟨fl, false, cap, rot, 0, ro, none, nid, bro, []⟩).2
              = ⟨subFlag fl delete_firstFlag, false, cap, rot, 0, ro, none, nid + 1, bro,
                 []⟩ := by
            simp [borrow_writeable, new_db, hfl]
          rw [hs]
          refine ⟨ro_le, by simp [rwIdle], by simp, idle_ro, out_ro, ?_, ?_, ?_, ?_⟩
          · intro x hx
            cases hx
          · intro c hc
            cases hc
          · intro h1
            simp at h1
          · rw [subFlag_df_df]
            intro h1
            cases h1
    · cases rwdb with
      | some c =>
          have hs : (borrow_writeable w ⟨fl, fw, cap, rot, rwt, ro, some c, nid, bro, brw⟩).2
              = ⟨fl, fw, cap, rot, rwt, ro, none, nid, bro, c :: brw⟩ := by
            simp [borrow_writeable, hfl, hrwt]
          rw [hs]
          simp only [rwIdle, Option.isSome_some, if_pos] at rw_eq
          refine ⟨ro_le, ?_, rw_le, idle_ro, out_ro, ?_, ?_, rw_flag, df_rw⟩
          · simp only [rwIdle, Option.isSome_none, List.length_cons, Bool.false_eq_true,
              if_false, reduceIte]
            omega
          · intro x hx
            rcases List.mem_cons.mp hx with rfl | hx
            · exact idle_rw x rfl
            · exact out_rw x hx
          · intro x hx
            cases hx
      | none =>
          have hs : (borrow_writeable w ⟨fl, fw, cap, rot, rwt, ro, none, nid, bro, brw⟩).2
              = ⟨fl, fw, cap, rot, rwt, ro, none, nid, bro, brw⟩ := by
            cases w <;> simp [borrow_writeable, hfl, hrwt]
          rw [hs]
          exact ⟨ro_le, rw_eq, rw_le, idle_ro, out_ro, out_rw, idle_rw, rw_flag, df_rw⟩

theorem inv_return_ro (s : PoolSt) (i : Nat) (h : Inv s) : Inv (return_ro s i) := by
  obtain ⟨fl, fw, cap, rot, rwt, ro, rwdb, nid, bro, brw⟩ := s
  obtain ⟨ro_le, rw_eq, rw_le, idle_ro, out_ro, out_rw, idle_rw, rw_flag, df_rw⟩ := h
  simp only [] at ro_le rw_eq rw_le idle_ro out_ro out_rw idle_rw rw_flag df_rw
  cases hget : bro[i]? with
  | none =>
      have hs : return_ro ⟨fl, fw, cap, rot, rwt, ro, rwdb, nid, bro, brw⟩ i
          = ⟨fl, fw, cap, rot, rwt, ro, rwdb, nid, bro, brw⟩ := by
        simp [return_ro, hget]
      rw [hs]
      exact ⟨ro_le, rw_eq, rw_le, idle_ro, out_ro, out_rw, idle_rw, rw_flag, df_rw⟩
  | some c =>
      have hi : i < bro.length := by
        obtain ⟨hlt, -⟩ := List.getElem?_eq_some.mp hget
        exact hlt
      have hmem : c ∈ bro := List.getElem?_mem hget
      have hlen : (bro.eraseIdx i).length = bro.length - 1 :=
        List.length_eraseIdx_of_lt hi
      have hsub : ∀ x ∈ bro.eraseIdx i, x ∈ bro := fun x hx => List.mem_of_mem_eraseIdx hx
      by_cases hcap : rot ≤ cap
      · have hs : return_ro ⟨fl, fw, cap, rot, rwt, ro, rwdb, nid, bro, brw⟩ i
            = ⟨fl, fw, cap, rot, rwt, c :: ro, rwdb, nid, bro.eraseIdx i, brw⟩ := by
          simp [return_ro, hget, hcap]
        rw [hs]
        refine ⟨?_, rw_eq, rw_le, ?_, ?_, out_rw, idle_rw, rw_flag, df_rw⟩
        · simp only [List.length_cons, hlen]
          omega
        · intro x hx
          rcases List.mem_cons.mp hx with rfl | hx
          · exact out_ro x hmem
          · exact idle_ro x hx
        · exact fun x hx => out_ro x (hsub x hx)
      · have hs : return_ro ⟨fl, fw, cap, rot, rwt, ro, rwdb, nid, bro, brw⟩ i
            = ⟨fl, fw, cap, rot - 1, rwt, ro, rwdb, nid, bro.eraseIdx i, brw⟩ := by
          simp [return_ro, hget, hcap]
        rw [hs]
        refine ⟨?_, rw_eq, rw_le, idle_ro, ?_, out_rw, idle_rw, rw_flag, df_rw⟩
        · simp only [hlen]
          omega
        · exact fun x hx => out_ro x (hsub x hx)

theorem inv_return_rw (s : PoolSt) (h : Inv s) : Inv (return_rw s) := by
  obtain ⟨fl, fw, cap, rot, rwt, ro, rwdb, nid, bro, brw⟩ := s
  obtain ⟨ro_le, rw_eq, rw_le, idle_ro, out_ro, out_rw, idle_rw, rw_flag, df_rw⟩ := h
  simp only [] at ro_le rw_eq rw_le idle_ro out_ro out_rw idle_rw rw_flag df_rw
  cases brw with
  | nil =>
      have hs : return_rw ⟨fl, fw, cap, rot, rwt, ro, rwdb, nid, bro, []⟩
          = ⟨fl, fw, cap, rot, rwt, ro, rwdb, nid, bro, []⟩ := by
        simp [return_rw]
      rw [hs]
      exact ⟨ro_le, rw_eq, rw_le, idle_ro, out_ro, out_rw, idle_rw, rw_flag, df_rw⟩
  | cons c rest =>
      have hs : return_rw ⟨fl, fw, cap, rot, rwt, ro, rwdb, nid, bro, c :: rest⟩
          = ⟨fl, fw, cap, rot, rwt, ro, some c, nid, bro, rest⟩ := by
        simp [return_rw]
      rw [hs]
      have hidle : rwdb = none := by
        cases hrwdb : rwdb with
        | none => rfl
        | some d =>
            rw [hrwdb] at rw_eq
            simp only [rwIdle, Option.isSome_some, if_pos, List.length_cons] at rw_eq
            omega
      rw [hidle] at rw_eq
      simp only [rwIdle, Option.isSome_none, Bool.false_eq_true, if_false, reduceIte,
        List.length_cons] at rw_eq
      refine ⟨ro_le, ?_, rw_le, idle_ro, out_ro, ?_, ?_, rw_flag, df_rw⟩
      · simp only [rwIdle, Option.isSome_some, if_pos]
        omega
      · exact fun x hx => out_rw x (List.mem_cons_of_mem c hx)
      · intro x hx
        cases hx
        exact out_rw c (List.mem_cons_self c rest)

theorem inv_set_capacity (s : PoolSt) (n : Nat) (s1 : PoolSt)
    (h : Inv s) (hok : set_capacity s n = Except.ok s1) : Inv s1 := by
  obtain ⟨fl, fw, cap, rot, rwt, ro, rwdb, nid, bro, brw⟩ := s
  obtain ⟨ro_le, rw_eq, rw_le, idle_ro, out_ro, out_rw, idle_rw, rw_flag, df_rw⟩ := h
  simp only [] at ro_le rw_eq rw_le idle_ro out_ro out_rw idle_rw rw_flag df_rw
  unfold set_capacity at hok
  split at hok
  · cases hok
  · cases hok
    refine ⟨?_, rw_eq, rw_le, ?_, out_ro, out_rw, idle_rw, rw_flag, df_rw⟩
    · simp only [List.length_drop]
      omega
    · exact fun x hx => idle_ro x (List.mem_of_mem_drop hx)

theorem inv_close_unused (s : PoolSt) (h : Inv s) : Inv (close_unused s) := by
  obtain ⟨fl, fw, cap, rot, rwt, ro, rwdb, nid, bro, brw⟩ := s
  obtain ⟨ro_le, rw_eq, rw_le, idle_ro, out_ro, out_rw, idle_rw, rw_flag, df_rw⟩ := h
  simp only [] at ro_le rw_eq rw_le idle_ro out_ro out_rw idle_rw rw_flag df_rw
  cases hrwdb : rwdb with
  | some c =>
      rw [hrwdb] at rw_eq
      simp only [rwIdle, Option.isSome_some, if_pos] at rw_eq
      have hbrw : brw = [] := by
        have := rw_le
        rw [rw_eq] at this
        exact List.length_eq_zero.mp (by omega)
      subst hbrw
      refine ⟨?_, ?_, ?_, ?_, out_ro, ?_, ?_, ?_, df_rw⟩ <;>
        simp only [close_unused, hrwdb, Option.isSome_some, if_pos, reduceIte]
      · simp only [List.length_nil]
        omega
      · simp [rwIdle]
      · simp
      · intro x hx
        cases hx
      · intro x hx
        cases hx
      · intro x hx
        cases hx
      · intro h1
        exact absurd h1 (by omega)
  | none =>
      rw [hrwdb] at rw_eq
      simp only [rwIdle, Option.isSome_none, Bool.false_eq_true, if_false, reduceIte] at rw_eq
      refine ⟨?_, ?_, rw_le, ?_, out_ro, out_rw, ?_, rw_flag, df_rw⟩ <;>
        simp only [close_unused, hrwdb, Option.isSome_none, Bool.false_eq_true, if_false,
          reduceIte]
      · simp only [List.length_nil]
        omega
      · simp only [rwIdle, Option.isSome_none, Bool.false_eq_true, if_false, reduceIte,
          List.length_nil]
        omega
      · intro x hx
        cases hx
      · intro x hx
        cases hx

theorem inv_set_rw_depth (s : PoolSt) (n : Nat) (h : Inv s) : Inv (set_rw_depth s n) := by
  obtain ⟨fl, fw, cap, rot, rwt, ro, rwdb, nid, bro, brw⟩ := s
  obtain ⟨ro_le, rw_eq, rw_le, idle_ro, out_ro, out_rw, idle_rw, rw_flag, df_rw⟩ := h
  simp only [] at ro_le rw_eq rw_le idle_ro out_ro out_rw idle_rw rw_flag df_rw
  cases brw with
  | nil =>
      have hs : set_rw_depth ⟨fl, fw, cap, rot, rwt, ro, rwdb, nid, bro, []⟩ n
          = ⟨fl, fw, cap, rot, rwt, ro, rwdb, nid, bro, []⟩ := by
        simp [set_rw_depth]
      rw [hs]
      exact ⟨ro_le, rw_eq, rw_le, idle_ro, out_ro, out_rw, idle_rw, rw_flag, df_rw⟩
  | cons c rest =>
      have hs : set_rw_depth ⟨fl, fw, cap, rot, rwt, ro, rwdb, nid, bro, c :: rest⟩ n
          = ⟨fl, fw, cap, rot, rwt, ro, rwdb, nid, bro, { c with txnDepth := n } :: rest⟩ := by
        simp [set_rw_depth]
      rw [hs]
      refine ⟨ro_le, ?_, rw_le, idle_ro, out_ro, ?_, idle_rw, rw_flag, df_rw⟩
      · simpa [rwIdle] using rw_eq
      · intro x hx
        rcases List.mem_cons.mp hx with rfl | hx
        · exact out_rw c (List.mem_cons_self c rest)
        · exact out_rw x (List.mem_cons_of_mem c hx)

theorem inv_set_ro_depth (s : PoolSt) (i n : Nat) (h : Inv s) : Inv (set_ro_depth s i n) := by
  obtain ⟨fl, fw, cap, rot, rwt, ro, rwdb, nid, bro, brw⟩ := s
  obtain ⟨ro_le, rw_eq, rw_le, idle_ro, out_ro, out_rw, idle_rw, rw_flag, df_rw⟩ := h
  simp only [] at ro_le rw_eq rw_le idle_ro out_ro out_rw idle_rw rw_flag df_rw
  cases hget : bro[i]? with
  | none =>
      have hs : set_ro_depth ⟨fl, fw, cap, rot, rwt, ro, rwdb, nid, bro, brw⟩ i n
          = ⟨fl, fw, cap, rot, rwt, ro, rwdb, nid, bro, brw⟩ := by
        simp [set_ro_depth, hget]
      rw [hs]
      exact ⟨ro_le, rw_eq, rw_le, idle_ro, out_ro, out_rw, idle_rw, rw_flag, df_rw⟩
  | some c =>
      have hs : set_ro_depth ⟨fl, fw, cap, rot, rwt, ro, rwdb, nid, bro, brw⟩ i n
          = ⟨fl, fw, cap, rot, rwt, ro, rwdb, nid, bro.set i { c with txnDepth := n }, brw⟩ := by
        simp [set_ro_depth, hget]
      rw [hs]
      have hmem : c ∈ bro := List.getElem?_mem hget
      refine ⟨?_, rw_eq, rw_le, idle_ro, ?_, out_rw, idle_rw, rw_flag, df_rw⟩
      · simpa using ro_le
      · intro x hx
        rcases List.mem_or_eq_of_mem_set hx with hx | rfl
        · exact out_ro x hx
        · exact out_ro c hmem

theorem inv_step (s : PoolSt) (op : Op) (h : Inv s) : Inv (step s op) := by
  cases op with
  | borrowRO w => exact inv_borrow w s h
  | borrowRW w => exact inv_borrow_writeable w s h
  | returnRO i => exact inv_return_ro s i h
  | returnRW => exact inv_return_rw s h
  | setCapacity n =>
      simp only [step]
      cases hok : set_capacity s n with
      | ok s1 => exact inv_set_capacity s n s1 h hok
      | error e => exact h
  | closeUnused => exact inv_close_unused s h
  | setRWDepth n => exact inv_set_rw_depth s n h
  | setRODepth i n => exact inv_set_ro_depth s i n h

theorem inv_run (s : PoolSt) (ops : List Op) (h : Inv s) : Inv (run s ops) := by
  induction ops generalizing s with
  | nil => exact h
  | cons op rest ih => exact ih (step s op) (inv_step s op h)

/-! ## The stronger invariant that holds while `set_capacity` is not used -/

/-- Without `set_capacity`, the read-only population bookkeeping is exact:
`_ro_total` equals idle plus borrowed read-only connections, and never
exceeds `_ro_capacity`.  (`set_capacity` breaks the first equation, since
it destroys idle connections without decrementing `_ro_total`.) -/
structure InvNC (s : PoolSt) : Prop where
  ro_eq : s.readonly.length + s.borrowedRO.length = s.ro_total
  ro_cap : s.ro_total ≤ s.ro_capacity

theorem invNC_pool_init (cfg : PoolConfig) (fw : Bool) : InvNC (pool_init cfg fw) := by
  refine ⟨?_, ?_⟩ <;> simp [pool_init]

theorem invNC_step (s : PoolSt) (op : Op) (hnc : InvNC s)
    (hop : isSetCap op = false) : InvNC (step s op) := by
  obtain ⟨fl, fw, cap, rot, rwt, ro, rwdb, nid, bro, brw⟩ := s
  obtain ⟨ro_eq, ro_cap⟩ := hnc
  simp only [] at ro_eq ro_cap
  cases op with
  | setCapacity n => cases hop
  | borrowRO w =>
      simp only [step]
      cases ro with
      | cons c rest =>
          have hs : (borrow w ⟨fl, fw, cap, rot, rwt, c :: rest, rwdb, nid, bro, brw⟩).2
              = ⟨fl, fw, cap, rot, rwt, rest, rwdb, nid, c :: bro, brw⟩ := by
            simp [borrow]
          rw [hs]
          refine ⟨?_, ro_cap⟩
          simp only [List.length_cons] at ro_eq ⊢
          omega
      | nil =>
          by_cases hc : rot < cap
          · have hs : (borrow w ⟨fl, fw, cap, rot, rwt, [], rwdb, nid, bro, brw⟩).2
                = ⟨subFlag fl delete_firstFlag, fw, cap, rot + 1, rwt, [],
                   rwdb, nid + 1, ⟨nid, false && fw, 0⟩ :: bro, brw⟩ := by
              simp [borrow, new_db, hc]
            rw [hs]
            refine ⟨?_, ?_⟩
            · simp only [List.length_nil, List.length_cons] at ro_eq ⊢
              omega
            · exact hc
          · have hs : (borrow w ⟨fl, fw, cap, rot, rwt, [], rwdb, nid, bro, brw⟩).2
                = ⟨fl, fw, cap, rot, rwt, [], rwdb, nid, bro, brw⟩ := by
              cases w <;> simp [borrow, hc]
            rw [hs]
            exact ⟨ro_eq, ro_cap⟩
  | borrowRW w =>
      simp only [step]
      have hro : ((borrow_writeable w ⟨fl, fw, cap, rot, rwt, ro, rwdb, nid, bro, brw⟩).2).readonly = ro ∧
          ((borrow_writeable w ⟨fl, fw, cap, rot, rwt, ro, rwdb, nid, bro, brw⟩).2).borrowedRO = bro ∧
          ((borrow_writeable w ⟨fl, fw, cap, rot, rwt, ro, rwdb, nid, bro, brw⟩).2).ro_total = rot ∧
          ((borrow_writeable w ⟨fl, fw, cap, rot, rwt, ro, rwdb, nid, bro, brw⟩).2).ro_capacity = cap := by
        dsimp only [borrow_writeable, new_db]
        repeat' split
        all_goals exact ⟨rfl, rfl, rfl, rfl⟩
      obtain ⟨h1, h2, h3, h4⟩ := hro
      exact ⟨by rw [h1, h2, h3]; exact ro_eq, by rw [h3, h4]; exact ro_cap⟩
  | returnRO i =>
      simp only [step]
      cases hget : bro[i]? with
      | none =>
          have hs : return_ro ⟨fl, fw, cap, rot, rwt, ro, rwdb, nid, bro, brw⟩ i
              = ⟨fl, fw, cap, rot, rwt, ro, rwdb, nid, bro, brw⟩ := by
            simp [return_ro, hget]
          rw [hs]
          exact ⟨ro_eq, ro_cap⟩
      | some c =>
          have hi : i < bro.length := by
            obtain ⟨hlt, -⟩ := List.getElem?_eq_some.mp hget
            exact hlt
          have hlen : (bro.eraseIdx i).length = bro.length - 1 :=
            List.length_eraseIdx_of_lt hi
          have hs : return_ro ⟨fl, fw, cap, rot, rwt, ro, rwdb, nid, bro, brw⟩ i
              = ⟨fl, fw, cap, rot, rwt, c :: ro, rwdb, nid, bro.eraseIdx i, brw⟩ := by
            simp [return_ro, hget, ro_cap]
          rw [hs]
          refine ⟨?_, ro_cap⟩
          simp only [List.length_cons, hlen]
          omega
  | returnRW =>
      simp only [step]
      cases brw with
      | nil =>
          have hs : return_rw ⟨fl, fw, cap, rot, rwt, ro, rwdb, nid, bro, []⟩
              = ⟨fl, fw, cap, rot, rwt, ro, rwdb, nid, bro, []⟩ := by
            simp [return_rw]
          rw [hs]
          exact ⟨ro_eq, ro_cap⟩
      | cons c rest =>
          have hs : return_rw ⟨fl, fw, cap, rot, rwt, ro, rwdb, nid, bro, c :: rest⟩
              = ⟨fl, fw, cap, rot, rwt, ro, some c, nid, bro, rest⟩ := by
            simp [return_rw]
          rw [hs]
          exact ⟨ro_eq, ro_cap⟩
  | closeUnused =>
      simp only [step, close_unused]
      refine ⟨?_, ?_⟩
      · simp only [List.length_nil]
        omega
      · simp only []
        omega
  | setRWDepth n =>
      simp only [step]
      cases brw with
      | nil =>
          have hs : set_rw_depth ⟨fl, fw, cap, rot, rwt, ro, rwdb, nid, bro, []⟩ n
              = ⟨fl, fw, cap, rot, rwt, ro, rwdb, nid, bro, []⟩ := by
            simp [set_rw_depth]
          rw [hs]
          exact ⟨ro_eq, ro_cap⟩
      | cons c rest =>
          have hs : set_rw_depth ⟨fl, fw, cap, rot, rwt, ro, rwdb, nid, bro, c :: rest⟩ n
              = ⟨fl, fw, cap, rot, rwt, ro, rwdb, nid, bro, { c with txnDepth := n } :: rest⟩ := by
            simp [set_rw_depth]
          rw [hs]
          exact ⟨ro_eq, ro_cap⟩
  | setRODepth i n =>
      simp only [step]
      cases hget : bro[i]? with
      | none =>
          have hs : set_ro_depth ⟨fl, fw, cap, rot, rwt, ro, rwdb, nid, bro, brw⟩ i n
              = ⟨fl, fw, cap, rot, rwt, ro, rwdb, nid, bro, brw⟩ := by
            simp [set_ro_depth, hget]
          rw [hs]
          exact ⟨ro_eq, ro_cap⟩
      | some c =>
          have hs : set_ro_depth ⟨fl, fw, cap, rot, rwt, ro, rwdb, nid, bro, brw⟩ i n
              = ⟨fl, fw, cap, rot, rwt, ro, rwdb, nid,
                 bro.set i { c with txnDepth := n }, brw⟩ := by
            simp [set_ro_depth, hget]
          rw [hs]
          refine ⟨?_, ro_cap⟩
          simpa using ro_eq

theorem invNC_run (s : PoolSt) (ops : List Op) (hnc : InvNC s)
    (h : noSetCap ops = true) : InvNC (run s ops) := by
  induction ops generalizing s with
  | nil => exact hnc
  | cons op rest ih =>
      rw [noSetCap, List.all_cons, Bool.and_eq_true] at h
      exact ih (step s op) (invNC_step s op hnc (by simpa using h.1)) (by simpa [noSetCap] using h.2)

/-! ## Claim theorems -/

/-- Claim C10: for a freshly constructed pool, before any `set_capacity`,
the internal read-only capacity defaults to 4 and the public `capacity()`
returns 5 (the writer slot is added). -/
theorem c10_default_capacity (cfg : PoolConfig) (fw : Bool) :
    (pool_init cfg fw).ro_capacity = 4 ∧ capacity (pool_init cfg fw) = 5 :=
  ⟨rfl, rfl⟩

/-- Claim C7: `try_borrow()` (`borrow false`) never blocks; it returns a
connection iff an idle read-only connection existed or
`ro_total < ro_capacity` allowed creating one (in which case `ro_total`
is incremented and the connection factory runs, i.e. `nextId` advances);
otherwise it returns an empty handle. -/
theorem c7_try_borrow (s : PoolSt) :
    (borrow false s).1 ≠ RoRes.wouldBlock ∧
    ((∃ c, (borrow false s).1 = RoRes.got c) ↔
      (s.readonly ≠ [] ∨ s.ro_total < s.ro_capacity)) ∧
    ((borrow false s).1 = RoRes.empty ↔
      (s.readonly = [] ∧ ¬ s.ro_total < s.ro_capacity)) ∧
    (s.readonly = [] → s.ro_total < s.ro_capacity →
      (borrow false s).2.ro_total = s.ro_total + 1 ∧
      (borrow false s).2.nextId = s.nextId + 1) := by
  obtain ⟨fl, fw, cap, rot, rwt, ro, rwdb, nid, bro, brw⟩ := s
  cases ro with
  | cons c rest =>
      refine ⟨?_, ?_, ?_, ?_⟩
      · simp [borrow]
      · simp [borrow]
      · simp [borrow]
      · intro h
        cases h
  | nil =>
      by_cases hc : rot < cap
      · refine ⟨?_, ?_, ?_, ?_⟩
        · simp [borrow, hc]
        · simp [borrow, new_db, hc]
        · simp [borrow, new_db, hc]
        · intro _ _
          constructor
          · simp [borrow, new_db, hc]
          · simp [borrow, new_db, hc]
      · refine ⟨?_, ?_, ?_, ?_⟩
        · simp [borrow, hc]
        · simp [borrow, hc]
        · simp [borrow, hc]
        · intro _ h
          exact absurd h hc

/-- Claim C7 witness: on a fresh default pool, `try_borrow` creates a
connection, incrementing `ro_total` and invoking the factory once. -/
theorem c7_witness :
    (borrow false poolD).2.ro_total = 1 ∧ (borrow false poolD).2.nextId = 1 :=
  (c7_try_borrow poolD).2.2.2 rfl (by decide)

/-- Claim C8 counterexample: the claim says a pool whose path is empty
fails at construction; in fact `pool::pool` never examines the path, and
construction with an empty path and the default flags succeeds. -/
theorem c8_counterexample :
    pool_new "" (readwriteFlag ||| createFlag) none =
      Except.ok { dbname := "", flags := readwriteFlag ||| createFlag, vfs := none } := by
  rfl

/-- Claim C8 (amended): pool construction fails immediately iff the flags
request an in-memory/temporary database or fail flag validation — the
path is never examined, so construction succeeds for an empty path and
any two paths give the same outcome; construction opens no connection
(`open_count` of a fresh pool is 0); an empty path is instead rejected
by `database::open`'s validation, which runs at the first borrow. -/
theorem c8_construction (name name2 : String) (flags : Nat) (cfg : PoolConfig) (fw : Bool) :
    ((∃ c, pool_new name flags none = Except.ok c) ↔
      (∃ c, pool_new name2 flags none = Except.ok c)) ∧
    pool_new name memoryFlag none = Except.error ArgError.poolNoTemporary ∧
    pool_new name temporaryFlag none = Except.error ArgError.poolNoTemporary ∧
    open_count (pool_init cfg fw) = 0 ∧
    open_validates "" (readwriteFlag ||| createFlag) = Except.error ArgError.emptyFilename := by
  refine ⟨?_, by rfl, by rfl, rfl, by rfl⟩
  unfold pool_new
  cases hn : normalize flags with
  | error e => simp [bind, Except.bind]
  | ok nf =>
      simp only [bind, Except.bind]
      by_cases ht : hasFlag nf temporaryFlag = true
      · simp [ht]
      · simp [ht, pure, Except.pure]

/-- Claim C2: the failing input for the `set_capacity` shrink.  Three
read-only connections are created, all returned idle; `set_capacity 2`
then destroys two of them (one idle connection remains and no handle is
outstanding), but `open_count()` still reports 3 because `set_capacity`
pops `_readonly` without decrementing `_ro_total`.  As a consequence
`close_all()` on this state waits forever (`_borrowed_count()` is stuck
at 2 with no borrower left). -/
theorem c2_set_capacity_bug :
    open_count (run poolD [Op.borrowRO true, Op.borrowRO true, Op.borrowRO true,
      Op.returnRO 0, Op.returnRO 0, Op.returnRO 0, Op.setCapacity 2]) = 3 ∧
    (run poolD [Op.borrowRO true, Op.borrowRO true, Op.borrowRO true,
      Op.returnRO 0, Op.returnRO 0, Op.returnRO 0, Op.setCapacity 2]).readonly.length = 1 ∧
    (run poolD [Op.borrowRO true, Op.borrowRO true, Op.borrowRO true,
      Op.returnRO 0, Op.returnRO 0, Op.returnRO 0, Op.setCapacity 2]).borrowedRO = [] ∧
    (run poolD [Op.borrowRO true, Op.borrowRO true, Op.borrowRO true,
      Op.returnRO 0, Op.returnRO 0, Op.returnRO 0, Op.setCapacity 2]).borrowedRW = [] ∧
    (run poolD [Op.borrowRO true, Op.borrowRO true, Op.borrowRO true,
      Op.returnRO 0, Op.returnRO 0, Op.returnRO 0, Op.setCapacity 2]).readwrite = none ∧
    close_all (run poolD [Op.borrowRO true, Op.borrowRO true, Op.borrowRO true,
      Op.returnRO 0, Op.returnRO 0, Op.returnRO 0, Op.setCapacity 2]) = none := by
  decide

/-- Claim C3 counterexample: with `set_capacity(4)` (so `_ro_capacity = 3`)
the first three `borrow()` calls succeed, but the fourth `borrow()` finds
no idle connection and no headroom and waits on the condition variable —
it does not succeed without blocking as the claim states. -/
theorem c3_counterexample :
    capacity (run poolD [Op.setCapacity 4]) = 4 ∧
    borrowed_count (run poolD [Op.setCapacity 4, Op.borrowRO true, Op.borrowRO true,
      Op.borrowRO true]) = 3 ∧
    (borrow true (run poolD [Op.setCapacity 4, Op.borrowRO true, Op.borrowRO true,
      Op.borrowRO true])).1 = RoRes.wouldBlock := by
  decide

/-- Claim C3 (amended): the scenario holds at the default capacity 5
(`_ro_capacity = 4`): four successive `borrow()` calls all succeed
without waiting, a fifth `try_borrow()` while all four handles are
outstanding returns an empty handle, and after returning one of the four
a blocking `borrow()` succeeds again (with the returned connection). -/
theorem c3_capacity_scenario :
    capacity poolD = 5 ∧
    (borrow true poolD).1 = RoRes.got ⟨0, false, 0⟩ ∧
    (borrow true (run poolD [Op.borrowRO true])).1 = RoRes.got ⟨1, false, 0⟩ ∧
    (borrow true (run poolD [Op.borrowRO true, Op.borrowRO true])).1 = RoRes.got ⟨2, false, 0⟩ ∧
    (borrow true (run poolD [Op.borrowRO true, Op.borrowRO true, Op.borrowRO true])).1 =
      RoRes.got ⟨3, false, 0⟩ ∧
    (borrow false (run poolD [Op.borrowRO true, Op.borrowRO true, Op.borrowRO true,
      Op.borrowRO true])).1 = RoRes.empty ∧
    (borrow true (return_ro (run poolD [Op.borrowRO true, Op.borrowRO true, Op.borrowRO true,
      Op.borrowRO true]) 0)).1 = RoRes.got ⟨3, false, 0⟩ := by
  decide

/-- Claim C1 counterexample: after four `borrow()` calls at the default
capacity 5, `set_capacity(2)` lowers `capacity()` to 2 while the four
handles are still outstanding, so `borrowed_count() = 4 > capacity() = 2`
at an observable point (the documented lazy shrink). -/
theorem c1_counterexample :
    borrowed_count (run poolD [Op.borrowRO true, Op.borrowRO true, Op.borrowRO true,
      Op.borrowRO true, Op.setCapacity 2]) = 4 ∧
    capacity (run poolD [Op.borrowRO true, Op.borrowRO true, Op.borrowRO true,
      Op.borrowRO true, Op.setCapacity 2]) = 2 ∧
    ¬ borrowed_count (run poolD [Op.borrowRO true, Op.borrowRO true, Op.borrowRO true,
      Op.borrowRO true, Op.setCapacity 2]) ≤
      capacity (run poolD [Op.borrowRO true, Op.borrowRO true, Op.borrowRO true,
        Op.borrowRO true, Op.setCapacity 2]) := by
  decide

/-- Claim C1 (amended): for every operation sequence that does not use
`set_capacity`, at every observable point `borrowed_count()` equals
`(ro_total - |idle_readonly|) + (rw_total - (idle_readwrite ? 1 : 0))`,
which equals the number of outstanding handles, and
`borrowed_count() ≤ capacity()`. -/
theorem c1_invariant (name : String) (flags : Nat) (vfs : Option String)
    (cfg : PoolConfig) (fw : Bool) (ops : List Op)
    (hcfg : pool_new name flags vfs = Except.ok cfg)
    (hops : noSetCap ops = true) :
    borrowed_count (run (pool_init cfg fw) ops) =
      (run (pool_init cfg fw) ops).borrowedRO.length +
        (run (pool_init cfg fw) ops).borrowedRW.length ∧
    borrowed_count (run (pool_init cfg fw) ops) ≤ capacity (run (pool_init cfg fw) ops) := by
  have hInv : Inv (run (pool_init cfg fw) ops) :=
    inv_run _ ops (inv_pool_init name flags vfs cfg fw hcfg)
  have hNC : InvNC (run (pool_init cfg fw) ops) :=
    invNC_run _ ops (invNC_pool_init cfg fw) hops
  have h1 := hNC.ro_eq
  have h2 := hNC.ro_cap
  have h3 := hInv.rw_eq
  have h4 := hInv.rw_le
  unfold borrowed_count capacity
  omega

/-- Claim C1 witness: a concrete run without `set_capacity`. -/
theorem c1_witness :
    borrowed_count (run (pool_init cfgD true) [Op.borrowRO true, Op.borrowRW true]) =
      (run (pool_init cfgD true) [Op.borrowRO true, Op.borrowRW true]).borrowedRO.length +
        (run (pool_init cfgD true) [Op.borrowRO true, Op.borrowRW true]).borrowedRW.length ∧
    borrowed_count (run (pool_init cfgD true) [Op.borrowRO true, Op.borrowRW true]) ≤
      capacity (run (pool_init cfgD true) [Op.borrowRO true, Op.borrowRW true]) :=
  c1_invariant "db" (readwriteFlag ||| createFlag) none cfgD true
    [Op.borrowRO true, Op.borrowRW true] (by rfl) (by decide)

/-- No idle writeable slot when `rwIdle` is zero. -/
theorem readwrite_none_of_rwIdle_zero (s : PoolSt) (h : rwIdle s = 0) :
    s.readwrite = none := by
  unfold rwIdle at h
  cases hrw : s.readwrite with
  | none => rfl
  | some c => rw [hrw] at h; simp at h

/-- On an invariant state with `_borrowed_count() == 0`, `_close_unused`
leaves nothing open and nothing borrowed. -/
theorem close_unused_zero (t : PoolSt) (h : Inv t) (h0 : borrowed_count t = 0) :
    borrowed_count (close_unused t) = 0 ∧ open_count (close_unused t) = 0 := by
  obtain ⟨fl, fw, cap, rot, rwt, ro, rwdb, nid, bro, brw⟩ := t
  obtain ⟨ro_le, rw_eq, rw_le, -, -, -, -, -, -⟩ := h
  simp only [] at ro_le rw_eq
  cases hrwdb : rwdb with
  | some c =>
      rw [hrwdb] at h0
      unfold borrowed_count rwIdle at h0
      simp only [Option.isSome_some, if_pos] at h0
      refine ⟨?_, ?_⟩ <;>
        simp only [close_unused, borrowed_count, open_count, rwIdle, hrwdb,
          Option.isSome_some, Option.isSome_none, if_pos, Bool.false_eq_true, if_false,
          reduceIte, List.length_nil] <;>
        omega
  | none =>
      rw [hrwdb] at h0 rw_eq
      unfold borrowed_count rwIdle at h0
      simp only [Option.isSome_none, Bool.false_eq_true, if_false, reduceIte] at h0
      refine ⟨?_, ?_⟩ <;>
        simp only [close_unused, borrowed_count, open_count, rwIdle, hrwdb,
          Option.isSome_none, Bool.false_eq_true, if_false, reduceIte, List.length_nil] <;>
        omega

/-- Claim C4: whenever `close_all()` returns (models: the wait on the
condition variable only ends once `_borrowed_count() == 0`), afterwards
`borrowed_count() = 0` and `open_count() = 0`. -/
theorem c4_close_all (name : String) (flags : Nat) (vfs : Option String)
    (cfg : PoolConfig) (fw : Bool) (ops : List Op) (s1 : PoolSt)
    (hcfg : pool_new name flags vfs = Except.ok cfg)
    (hclose : close_all (run (pool_init cfg fw) ops) = some s1) :
    borrowed_count s1 = 0 ∧ open_count s1 = 0 := by
  have hInv : Inv (run (pool_init cfg fw) ops) :=
    inv_run _ ops (inv_pool_init name flags vfs cfg fw hcfg)
  simp only [close_all] at hclose
  split at hclose
  · rename_i h0
    cases hclose
    exact close_unused_zero _ (inv_close_unused _ hInv) h0
  · cases hclose

/-- Claim C4 witness: a concrete borrow/return run followed by `close_all`. -/
theorem c4_witness :
    borrowed_count ((close_all (run (pool_init cfgD true)
        [Op.borrowRO true, Op.returnRO 0])).getD poolD) = 0 ∧
    open_count ((close_all (run (pool_init cfgD true)
        [Op.borrowRO true, Op.returnRO 0])).getD poolD) = 0 :=
  c4_close_all "db" (readwriteFlag ||| createFlag) none cfgD true
    [Op.borrowRO true, Op.returnRO 0]
    ((close_all (run (pool_init cfgD true) [Op.borrowRO true, Op.returnRO 0])).getD poolD)
    (by rfl) (by decide)

/-- Claim C5: in every execution, at most one writeable connection exists
(`rw_total ≤ 1`), at most one writeable handle is outstanding, and
`try_borrow_writeable()` while one is outstanding returns an empty
handle. -/
theorem c5_single_writer (name : String) (flags : Nat) (vfs : Option String)
    (cfg : PoolConfig) (fw : Bool) (ops : List Op)
    (hcfg : pool_new name flags vfs = Except.ok cfg) :
    (run (pool_init cfg fw) ops).rw_total ≤ 1 ∧
    (run (pool_init cfg fw) ops).borrowedRW.length ≤ 1 ∧
    ((run (pool_init cfg fw) ops).borrowedRW ≠ [] →
      (borrow_writeable false (run (pool_init cfg fw) ops)).1 = RwRes.empty) := by
  set s := run (pool_init cfg fw) ops with hs
  have hInv : Inv s := inv_run _ ops (inv_pool_init name flags vfs cfg fw hcfg)
  have h3 := hInv.rw_eq
  have h4 := hInv.rw_le
  refine ⟨h4, by omega, ?_⟩
  intro hne
  have hlen : 0 < s.borrowedRW.length := List.length_pos.mpr hne
  have hrwt : s.rw_total = 1 := by omega
  have hidl : rwIdle s = 0 := by omega
  have hnone : s.readwrite = none := readwrite_none_of_rwIdle_zero s hidl
  have hfl : hasFlag s.flags readwriteFlag = true := hInv.rw_flag hrwt
  simp [borrow_writeable, hfl, hrwt, hnone]

/-- Claim C5 witness: one outstanding writeable handle, and the
non-blocking second borrow comes back empty. -/
theorem c5_witness :
    (run (pool_init cfgD true) [Op.borrowRW true]).borrowedRW ≠ [] ∧
    (borrow_writeable false (run (pool_init cfgD true) [Op.borrowRW true])).1 =
      RwRes.empty :=
  ⟨by decide, (c5_single_writer "db" (readwriteFlag ||| createFlag) none cfgD true
    [Op.borrowRW true] (by rfl)).2.2 (by decide)⟩

/-- Claim C6: with the writeable handle outstanding, returning it and
borrowing writeable again yields the same underlying connection and
performs no new open (`nextId` and `rw_total` unchanged) — the writeable
connection is recycled, not recreated. -/
theorem c6_rw_roundtrip (name : String) (flags : Nat) (vfs : Option String)
    (cfg : PoolConfig) (fw : Bool) (ops : List Op) (c : Conn)
    (hcfg : pool_new name flags vfs = Except.ok cfg)
    (hout : (run (pool_init cfg fw) ops).borrowedRW = [c]) :
    (borrow_writeable true (return_rw (run (pool_init cfg fw) ops))).1 = RwRes.got c ∧
    (borrow_writeable true (return_rw (run (pool_init cfg fw) ops))).2.nextId =
      (run (pool_init cfg fw) ops).nextId ∧
    (borrow_writeable true (return_rw (run (pool_init cfg fw) ops))).2.rw_total =
      (run (pool_init cfg fw) ops).rw_total := by
  set s := run (pool_init cfg fw) ops with hs
  have hInv : Inv s := inv_run _ ops (inv_pool_init name flags vfs cfg fw hcfg)
  have h3 := hInv.rw_eq
  have h4 := hInv.rw_le
  rw [hout] at h3
  simp only [List.length_cons, List.length_nil] at h3
  have hrwt : s.rw_total = 1 := by omega
  have hfl : hasFlag s.flags readwriteFlag = true := hInv.rw_flag hrwt
  have hret : return_rw s = { s with readwrite := some c, borrowedRW := [] } := by
    simp [return_rw, hout]
  rw [hret]
  refine ⟨?_, ?_, ?_⟩ <;> simp [borrow_writeable, hfl, hrwt]

/-- Claim C6 witness: first writeable borrow, return, borrow again — the
very same connection id 0 comes back and no new connection is opened. -/
theorem c6_witness :
    (borrow_writeable true (return_rw (run (pool_init cfgD true) [Op.borrowRW true]))).1 =
      RwRes.got ⟨0, true, 0⟩ ∧
    (borrow_writeable true (return_rw (run (pool_init cfgD true) [Op.borrowRW true]))).2.nextId =
      (run (pool_init cfgD true) [Op.borrowRW true]).nextId ∧
    (borrow_writeable true (return_rw (run (pool_init cfgD true) [Op.borrowRW true]))).2.rw_total =
      (run (pool_init cfgD true) [Op.borrowRW true]).rw_total :=
  c6_rw_roundtrip "db" (readwriteFlag ||| createFlag) none cfgD true
    [Op.borrowRW true] ⟨0, true, 0⟩ (by rfl) (by decide)

/-- Claim C9 counterexample: a read-only connection put into a transaction
(depth 1) by its borrower is returned to the pool: every assert of the
read-only deleter passes and the connection lands back in the idle store
still mid-transaction — there is no transaction-depth assert on the
read-only return path. -/
theorem c9_counterexample :
    (run poolD [Op.borrowRO true, Op.setRODepth 0 1]).borrowedRO = [⟨0, false, 1⟩] ∧
    ro_return_checks (run poolD [Op.borrowRO true, Op.setRODepth 0 1]) ⟨0, false, 1⟩ = true ∧
    (return_ro (run poolD [Op.borrowRO true, Op.setRODepth 0 1]) 0).readonly =
      [⟨0, false, 1⟩] := by
  decide

/-- Claim C9 (amended): only the writeable deleter asserts
`transaction_depth() == 0`: on any reachable state, its asserts pass
exactly when the returned connection's depth is zero (so they never fire
under the precondition that callers end transactions before returning),
while the read-only deleter's asserts (`!is_writeable()`,
`size < ro_total`) pass for every outstanding read-only handle
regardless of its transaction depth. -/
theorem c9_return_asserts (name : String) (flags : Nat) (vfs : Option String)
    (cfg : PoolConfig) (fw : Bool) (ops : List Op)
    (hcfg : pool_new name flags vfs = Except.ok cfg) :
    (∀ c ∈ (run (pool_init cfg fw) ops).borrowedRO,
      ro_return_checks (run (pool_init cfg fw) ops) c = true) ∧
    (∀ c ∈ (run (pool_init cfg fw) ops).borrowedRW,
      (rw_return_checks (run (pool_init cfg fw) ops) c = true ↔ c.txnDepth = 0)) := by
  set s := run (pool_init cfg fw) ops with hs
  have hInv : Inv s := inv_run _ ops (inv_pool_init name flags vfs cfg fw hcfg)
  constructor
  · intro c hc
    have hw := hInv.out_ro c hc
    have hlen : 0 < s.borrowedRO.length := List.length_pos.mpr (List.ne_nil_of_mem hc)
    have hle := hInv.ro_le
    have hlt : s.readonly.length < s.ro_total := by omega
    simp [ro_return_checks, hw, hlt]
  · intro c hc
    have hw := hInv.out_rw c hc
    have h3 := hInv.rw_eq
    have h4 := hInv.rw_le
    have hlen : 0 < s.borrowedRW.length := List.length_pos.mpr (List.ne_nil_of_mem hc)
    have hrwt : s.rw_total = 1 := by omega
    have hidl : rwIdle s = 0 := by omega
    have hnone : s.readwrite = none := readwrite_none_of_rwIdle_zero s hidl
    simp [rw_return_checks, hw, hrwt, hnone]

/-- Claim C9 witness: with a writeable and a read-only handle outstanding,
the read-only deleter's asserts pass for the read-only handle. -/
theorem c9_witness :
    ro_return_checks (run (pool_init cfgD true) [Op.borrowRW true, Op.borrowRO true])
      ⟨1, false, 0⟩ = true :=
  (c9_return_asserts "db" (readwriteFlag ||| createFlag) none cfgD true
    [Op.borrowRW true, Op.borrowRO true] (by rfl)).1 ⟨1, false, 0⟩ (by decide)

end Sqnice
